import Mathlib
set_option maxHeartbeats 1000000
/-!
Verification development for the caching, merge/deduplication and
generation-rate-limit core of the photoshow repository (src/lib).

Conventions of the embedding:
- JavaScript strings that may be absent are `Option String`; JS truthiness
  (undefined and the empty string are falsy) is `truthyS`.
- `createdAt` fields are represented by the result of
  new Date(x).getTime(): `some t` for a parseable timestamp with
  millisecond value t, `none` when missing or unparsable (NaN).
- Fallible store calls are `Except Unit v` values; the code under test
  catches every failure internally, so the modelled functions are total.
-/

/-- An image record as seen by the merge/dedup engine and by the cache
services.  Only the fields this code inspects are modelled. -/
structure Image where
  id : Option String
  fileName : Option String
  cloudFileName : Option String
  createdAt : Option Int
deriving DecidableEq, Repr

/-- JS string truthiness: a missing value and the empty string are falsy. -/
def truthyS : Option String → Bool
  | none => false
  | some s => decide (s ≠ "")

/-- JS `a || b` on possibly-missing strings. -/
def jsOrS (a b : Option String) : Option String :=
  if truthyS a then a else b

/-- JS `a || b || dflt` collapsed to a mandatory string default. -/
def jsOrSD (a : Option String) (dflt : String) : String :=
  if truthyS a then a.getD "" else dflt

namespace CacheService

/-- The dedup key of a cloud-side record in mergeAndDeduplicateImages:
cloudImage.id, else cloudImage.cloudFileName, else cloudImage.fileName,
normalised to `some k` exactly when the JS value is truthy (the code guards
with `if (cloudKey && ...)`). -/
def cloudKey (img : Image) : Option String :=
  let v := jsOrS img.id (jsOrS img.cloudFileName img.fileName)
  if truthyS v then v else none

/-- First loop of mergeAndDeduplicateImages: every non-null local image is
appended to the result unconditionally. -/
def localKept : List (Option Image) → List Image
  | [] => []
  | none :: rest => localKept rest
  | some img :: rest => img :: localKept rest

/-- The processedLocalFileNames set after the first loop: every truthy local
fileName. -/
def localFileNames : List (Option Image) → List String
  | [] => []
  | none :: rest => localFileNames rest
  | some img :: rest =>
    if truthyS img.fileName then img.fileName.getD "" :: localFileNames rest
    else localFileNames rest

/-- The processedCloudFileNames set after the first loop: every truthy local
cloudFileName. -/
def localCloudNames : List (Option Image) → List String
  | [] => []
  | none :: rest => localCloudNames rest
  | some img :: rest =>
    if truthyS img.cloudFileName then img.cloudFileName.getD "" :: localCloudNames rest
    else localCloudNames rest

/-- Second loop of mergeAndDeduplicateImages: a cloud image is kept iff its
key is truthy and absent from both seen-sets; the keys of kept images are
added to the cloud seen-set as the loop advances. -/
def processClouds (ln : List String) : List String → List (Option Image) → List Image
  | _, [] => []
  | cn, none :: rest => processClouds ln cn rest
  | cn, some img :: rest =>
    match cloudKey img with
    | none => processClouds ln cn rest
    | some k =>
      if k ∈ cn ∨ k ∈ ln then processClouds ln cn rest
      else img :: processClouds ln (k :: cn) rest

/-- The sort comparator `new Date(b.createdAt) - new Date(a.createdAt)`, read
as the relation "a may stay (weakly) before b": the comparator result is at
most 0.  A NaN comparator result (either timestamp unparsable) is coerced to
+0 by ECMAScript SortCompare, i.e. the pair compares as equal. -/
def imgLeB (a b : Image) : Bool :=
  match a.createdAt, b.createdAt with
  | some ta, some tb => decide (tb ≤ ta)
  | _, _ => true

/-- Propositional form of the comparator relation. -/
def imgLe (a b : Image) : Prop := imgLeB a b = true

instance : DecidableRel imgLe := fun a b =>
  inferInstanceAs (Decidable (imgLeB a b = true))

/-- mergeAndDeduplicateImages of src/lib/cacheService.js lines 184-248 (the
copy in src/lib/redisCacheService.js lines 385-449 is textually identical).
The in-place Array.sort is modelled by a stable insertion sort, which agrees
with every stable sort - in particular the engine implementation - whenever
the comparator is a consistent comparison function. -/
def mergeAndDeduplicateImages (localImages cloudImages : List (Option Image)) : List Image :=
  List.insertionSort imgLe
    (localKept localImages ++
      processClouds (localFileNames localImages) (localCloudNames localImages) cloudImages)

/-- Boolean clash test: both records carry a truthy dedup key and the keys
coincide. -/
def keyNeB (a b : Image) : Bool :=
  match cloudKey a, cloudKey b with
  | some ka, some kb => decide (ka ≠ kb)
  | _, _ => true

/-- Two records do not clash: whenever both carry a truthy dedup key, the
keys differ. -/
def keyNe (a b : Image) : Prop := keyNeB a b = true

instance : DecidableRel keyNe := fun a b =>
  inferInstanceAs (Decidable (keyNeB a b = true))

/-- Boolean form of "the dedup key of this record, when truthy, is already
recorded in one of the two seen-sets the local loop builds". -/
def keyCoveredB (x : Image) (ln cn : List String) : Bool :=
  match cloudKey x with
  | none => true
  | some k => decide (k ∈ ln) || decide (k ∈ cn)

/-- The dedup key of the record is covered by the seen-sets. -/
def keyCovered (x : Image) (ln cn : List String) : Prop := keyCoveredB x ln cn = true

instance (x : Image) (ln cn : List String) : Decidable (keyCovered x ln cn) :=
  inferInstanceAs (Decidable (keyCoveredB x ln cn = true))

/-- A record passes the cloud-loop filter relative to the initial seen-sets:
its dedup key is truthy and in neither set. -/
def keepB (ln cn : List String) (x : Image) : Bool := ! keyCoveredB x ln cn

/-- The imageCache singleton of src/lib/cacheService.js: image list, last
update timestamp (a Date, modelled by its millisecond value) and the
initialization flag. -/
structure ImageCache where
  images : List Image
  lastUpdated : Option Int
  isInitialized : Bool
deriving DecidableEq, Repr

/-- Replace the first record whose id equals the given id (findIndex plus
assignment); none when no record matches. -/
def replaceFirstById (image : Image) : List Image → Option (List Image)
  | [] => none
  | img :: rest =>
    if img.id == image.id then some (image :: rest)
    else (replaceFirstById image rest).map (img :: ·)

/-- Shallow-merge an update onto the first record whose id matches.  The JS
object spread onto the found record is modelled by an update function. -/
def updateFirstById (imageId : Option String) (upd : Image → Image) :
    List Image → Option (List Image)
  | [] => none
  | img :: rest =>
    if img.id == imageId then some (upd img :: rest)
    else (updateFirstById imageId upd rest).map (img :: ·)

/-- initCache: replace the stored list wholesale, stamp lastUpdated, set the
flag. -/
def initCache (images : List Image) (now : Int) (_s : ImageCache) : ImageCache :=
  ⟨images, some now, true⟩

/-- addImageToCache: upsert by id (replace the first match entirely,
otherwise append), stamp lastUpdated. -/
def addImageToCache (image : Image) (now : Int) (s : ImageCache) : ImageCache :=
  match replaceFirstById image s.images with
  | some l => ⟨l, some now, s.isInitialized⟩
  | none => ⟨s.images ++ [image], some now, s.isInitialized⟩

/-- removeImageFromCache: filter out the id; the timestamp is stamped and
true returned only when the length changed. -/
def removeImageFromCache (imageId : Option String) (now : Int) (s : ImageCache) :
    ImageCache × Bool :=
  let filtered := s.images.filter (fun img => !(img.id == imageId))
  if filtered.length ≠ s.images.length then (⟨filtered, some now, s.isInitialized⟩, true)
  else (⟨filtered, s.lastUpdated, s.isInitialized⟩, false)

/-- updateImageInCache: shallow-merge onto the first match, stamp and return
true; false when the id is absent. -/
def updateImageInCache (imageId : Option String) (upd : Image → Image) (now : Int)
    (s : ImageCache) : ImageCache × Bool :=
  match updateFirstById imageId upd s.images with
  | some l => (⟨l, some now, s.isInitialized⟩, true)
  | none => (s, false)

/-- clearCache: empty the list, stamp, reset the flag. -/
def clearCache (now : Int) (_s : ImageCache) : ImageCache :=
  ⟨[], some now, false⟩

/-- syncCache success path: non-array inputs are treated as empty lists, the
merge engine runs, the envelope is replaced and the flag set.  The
best-effort file snapshot write cannot change the in-memory state and is
omitted. -/
def syncCache (localImages cloudImages : Option (List (Option Image))) (now : Int)
    (_s : ImageCache) : ImageCache :=
  ⟨mergeAndDeduplicateImages (localImages.getD []) (cloudImages.getD []), some now, true⟩

/-- syncCache outer catch (error-recovery) path: keep the images, keep or
freshly stamp lastUpdated, and force the flag to true. -/
def syncCacheErrorPath (now : Int) (s : ImageCache) : ImageCache :=
  ⟨s.images, some (s.lastUpdated.getD now), true⟩

/-- One operation against the file-backed cache service.  Read operations do
not change the singleton. -/
inductive FileOp where
  | init (images : List Image) (now : Int)
  | getAll
  | isInit
  | getLast
  | add (image : Image) (now : Int)
  | remove (imageId : Option String) (now : Int)
  | update (imageId : Option String) (upd : Image → Image) (now : Int)
  | clear (now : Int)
  | sync (localImages cloudImages : Option (List (Option Image))) (now : Int)
  | syncErr (now : Int)

/-- Whether the operation is the explicit clear. -/
def FileOp.isClear : FileOp → Bool
  | .clear _ => true
  | _ => false

/-- Apply one operation to the singleton state. -/
def applyFileOp (s : ImageCache) : FileOp → ImageCache
  | .init images now => initCache images now s
  | .getAll => s
  | .isInit => s
  | .getLast => s
  | .add image now => addImageToCache image now s
  | .remove imageId now => (removeImageFromCache imageId now s).1
  | .update imageId upd now => (updateImageInCache imageId upd now s).1
  | .clear now => clearCache now s
  | .sync l c now => syncCache l c now s
  | .syncErr now => syncCacheErrorPath now s

/-- Apply a sequence of operations, oldest first. -/
def applyFileOps (ops : List FileOp) (s : ImageCache) : ImageCache :=
  ops.foldl applyFileOp s

end CacheService

/-- A lastUpdated value as the cache manager sees it: either a string (kept
as its Date-parse result, none meaning NaN) or a Date object (kept as its
millisecond value). -/
inductive TimeVal where
  | str (parsed : Option Int)
  | date (ms : Int)
deriving DecidableEq, Repr

namespace CacheManager

/-- The memoryLevelCache singleton of src/lib/cacheManager.js.  The ttl
field is the constant 10000 ms.  As in the JS, a null lastUpdated value
fetched from the backing store is indistinguishable from a never-populated
field. -/
structure MemoryLevelCache where
  images : Option (List Image)
  lastFetch : Int
  isInitialized : Option Bool
  lastInitializedCheck : Int
  lastUpdated : Option TimeVal
  lastUpdatedCheck : Int
deriving DecidableEq, Repr

/-- The initial memoryLevelCache value (images null, flags null, check
times 0). -/
def initialMemoryLevelCache : MemoryLevelCache := ⟨none, 0, none, 0, none, 0⟩

/-- Manager state when the configured cache type is the file variant: the
file-backed singleton plus the in-process memory level cache. -/
structure FileManagerState where
  backing : CacheService.ImageCache
  mem : MemoryLevelCache
deriving DecidableEq, Repr

/-- Manager getCachedImages (file branch): serve from the memory level
cache when it holds images fetched less than 10 s ago, otherwise read the
backing store and refresh the memory layer. -/
def getCachedImagesM (now : Int) (s : FileManagerState) :
    List Image × FileManagerState :=
  match s.mem.images with
  | some imgs =>
    if now - s.mem.lastFetch < 10000 then (imgs, s)
    else
      let result := s.backing.images
      (result, ⟨s.backing, { s.mem with images := some result, lastFetch := now }⟩)
  | none =>
    let result := s.backing.images
    (result, ⟨s.backing, { s.mem with images := some result, lastFetch := now }⟩)

/-- Manager addImageToCache (file branch): write the backing store first,
then upsert into the memory level image list when it is populated. -/
def addImageToCacheM (image : Image) (now : Int) (s : FileManagerState) :
    FileManagerState :=
  let backing := CacheService.addImageToCache image now s.backing
  let memImages :=
    match s.mem.images with
    | some l =>
      some (match CacheService.replaceFirstById image l with
            | some l2 => l2
            | none => l ++ [image])
    | none => none
  ⟨backing, { s.mem with images := memImages }⟩

/-- Manager removeImageFromCache (file branch): write the backing store
first, then filter the memory level image list when it is populated. -/
def removeImageFromCacheM (imageId : Option String) (now : Int)
    (s : FileManagerState) : FileManagerState × Bool :=
  let r := CacheService.removeImageFromCache imageId now s.backing
  let memImages := s.mem.images.map (List.filter (fun img => !(img.id == imageId)))
  (⟨r.1, { s.mem with images := memImages }⟩, r.2)

/-- Manager updateImageInCache (file branch): delegates to the backing store
only; the memory level cache is not touched. -/
def updateImageInCacheM (imageId : Option String) (upd : Image → Image) (now : Int)
    (s : FileManagerState) : FileManagerState × Bool :=
  let r := CacheService.updateImageInCache imageId upd now s.backing
  (⟨r.1, s.mem⟩, r.2)

/-- Manager clearCache (file branch): delegates to the backing store only;
the memory level cache is not touched. -/
def clearCacheM (now : Int) (s : FileManagerState) : FileManagerState :=
  ⟨CacheService.clearCache now s.backing, s.mem⟩

/-- Manager syncCache (file branch): delegates to the backing store only;
the memory level cache is not touched. -/
def syncCacheM (localImages cloudImages : Option (List (Option Image))) (now : Int)
    (s : FileManagerState) : FileManagerState :=
  ⟨CacheService.syncCache localImages cloudImages now s.backing, s.mem⟩

end CacheManager

namespace RedisCacheService

/-- The three Redis keys of the envelope, each independently present or
absent.  Timestamps are stored as strings (TimeVal.str of their parse). -/
structure RedisStore where
  images : Option (List Image)
  lastUpdated : Option TimeVal
  isInitialized : Option Bool
deriving DecidableEq, Repr

/-- The in-process memoryCache backup of src/lib/redisCacheService.js. -/
structure MemoryCache where
  images : List Image
  lastUpdated : Option TimeVal
  isInitialized : Bool
deriving DecidableEq, Repr

/-- Initial memoryCache: empty list, null timestamp, false flag. -/
def initialMemoryCache : MemoryCache := ⟨[], none, false⟩

/-- Full service state: the Redis keys plus the memory backup. -/
structure RedisState where
  store : RedisStore
  mem : MemoryCache
deriving DecidableEq, Repr

/-- getCachedImages: return the Redis value when the call succeeds and the
value is truthy (any array, even empty, is truthy; null is not), otherwise
fall back to the memory backup.  fail=true means the getCache call throws. -/
def getCachedImages (fail : Bool) (s : RedisState) : List Image :=
  if fail then s.mem.images
  else
    match s.store.images with
    | some imgs => imgs
    | none => s.mem.images

/-- isCacheInitialized: double-negate the fetched value (null reads as
false); fall back to the memory backup on failure. -/
def isCacheInitialized (fail : Bool) (s : RedisState) : Bool :=
  if fail then s.mem.isInitialized
  else s.store.isInitialized.getD false

/-- getLastUpdated: the fetched value as is (possibly null); fall back to
the memory backup on failure. -/
def getLastUpdated (fail : Bool) (s : RedisState) : Option TimeVal :=
  if fail then s.mem.lastUpdated
  else s.store.lastUpdated

/-- initCache with one failure flag per setCache call (true = the call
throws, aborting the rest of the try block; the catch updates only the
memory backup).  The memory backup receives the new envelope on every
path. -/
def initCache (images : List Image) (ts : TimeVal) (f1 f2 f3 : Bool)
    (s : RedisState) : RedisState :=
  if f1 then ⟨s.store, ⟨images, some ts, true⟩⟩
  else if f2 then ⟨{ s.store with images := some images }, ⟨images, some ts, true⟩⟩
  else if f3 then
    ⟨{ s.store with images := some images, lastUpdated := some ts }, ⟨images, some ts, true⟩⟩
  else ⟨⟨some images, some ts, some true⟩, ⟨images, some ts, true⟩⟩

/-- addImageToCache: guard on a truthy id, read the current list (with its
own internal fallback), upsert, then write the images key and the timestamp
key.  fGet = the read call throws, fSet1/fSet2 = the two writes throw (or
report failure, which the code re-raises); the catch upserts into the
memory backup only.  The IS_INITIALIZED key is never touched. -/
def addImageToCache (image : Image) (ts : TimeVal) (fGet fSet1 fSet2 : Bool)
    (s : RedisState) : RedisState × Bool :=
  if !(truthyS image.id) then (s, false)
  else
    let images := getCachedImages fGet s
    let upserted :=
      match CacheService.replaceFirstById image images with
      | some l => l
      | none => images ++ [image]
    let memUpserted :=
      match CacheService.replaceFirstById image s.mem.images with
      | some l => l
      | none => s.mem.images ++ [image]
    if fSet1 then
      (⟨s.store, ⟨memUpserted, some ts, s.mem.isInitialized⟩⟩, false)
    else if fSet2 then
      (⟨{ s.store with images := some upserted },
        ⟨memUpserted, some ts, s.mem.isInitialized⟩⟩, false)
    else
      (⟨{ s.store with images := some upserted, lastUpdated := some ts },
        ⟨upserted, some ts, s.mem.isInitialized⟩⟩, true)

/-- removeImageFromCache: read, filter, and only when the length changed
write the images and timestamp keys; the catch filters the memory backup
instead.  The IS_INITIALIZED key is never touched. -/
def removeImageFromCache (imageId : Option String) (ts : TimeVal)
    (fGet fSet1 fSet2 : Bool) (s : RedisState) : RedisState × Bool :=
  let images := getCachedImages fGet s
  let filtered := images.filter (fun img => !(img.id == imageId))
  let memFiltered := s.mem.images.filter (fun img => !(img.id == imageId))
  let memChanged := memFiltered.length ≠ s.mem.images.length
  if filtered.length ≠ images.length then
    if fSet1 then
      (⟨s.store,
        ⟨memFiltered, if memChanged then some ts else s.mem.lastUpdated,
         s.mem.isInitialized⟩⟩, memChanged)
    else if fSet2 then
      (⟨{ s.store with images := some filtered },
        ⟨memFiltered, if memChanged then some ts else s.mem.lastUpdated,
         s.mem.isInitialized⟩⟩, memChanged)
    else
      (⟨{ s.store with images := some filtered, lastUpdated := some ts },
        ⟨filtered, some ts, s.mem.isInitialized⟩⟩, true)
  else (s, false)

/-- updateImageInCache: read, shallow-merge onto the first id match, write
the images and timestamp keys; false when the id is not found.  The catch
applies the update to the memory backup instead.  The IS_INITIALIZED key is
never touched. -/
def updateImageInCache (imageId : Option String) (upd : Image → Image) (ts : TimeVal)
    (fGet fSet1 fSet2 : Bool) (s : RedisState) : RedisState × Bool :=
  let images := getCachedImages fGet s
  match CacheService.updateFirstById imageId upd images with
  | some updated =>
    if fSet1 ∨ fSet2 then
      match CacheService.updateFirstById imageId upd s.mem.images with
      | some memUpdated =>
        (⟨if fSet1 then s.store else { s.store with images := some updated },
          ⟨memUpdated, some ts, s.mem.isInitialized⟩⟩, true)
      | none =>
        (⟨if fSet1 then s.store else { s.store with images := some updated },
          s.mem⟩, false)
    else
      (⟨{ s.store with images := some updated, lastUpdated := some ts },
        ⟨updated, some ts, s.mem.isInitialized⟩⟩, true)
  | none => (s, false)

/-- clearCache: write an empty list, a fresh timestamp and a false flag;
the catch clears the memory backup, which is cleared on every path. -/
def clearCache (ts : TimeVal) (f1 f2 f3 : Bool) (s : RedisState) : RedisState :=
  if f1 then ⟨s.store, ⟨[], some ts, false⟩⟩
  else if f2 then ⟨{ s.store with images := some [] }, ⟨[], some ts, false⟩⟩
  else if f3 then
    ⟨{ s.store with images := some [], lastUpdated := some ts }, ⟨[], some ts, false⟩⟩
  else ⟨⟨some [], some ts, some false⟩, ⟨[], some ts, false⟩⟩

/-- syncCache: merge the two inputs (non-arrays read as empty) and write
the three keys; on any failure the catch recomputes the merge and updates
the memory backup, which always ends initialized with the merged list. -/
def syncCache (localImages cloudImages : Option (List (Option Image))) (ts : TimeVal)
    (f1 f2 f3 : Bool) (s : RedisState) : RedisState :=
  let merged := CacheService.mergeAndDeduplicateImages
    (localImages.getD []) (cloudImages.getD [])
  if f1 then ⟨s.store, ⟨merged, some ts, true⟩⟩
  else if f2 then ⟨{ s.store with images := some merged }, ⟨merged, some ts, true⟩⟩
  else if f3 then
    ⟨{ s.store with images := some merged, lastUpdated := some ts },
     ⟨merged, some ts, true⟩⟩
  else ⟨⟨some merged, some ts, some true⟩, ⟨merged, some ts, true⟩⟩

/-- One operation against the Redis-backed cache service, with its failure
flags.  Read operations do not change the state. -/
inductive RedisOp where
  | init (images : List Image) (ts : TimeVal) (f1 f2 f3 : Bool)
  | getAll (fail : Bool)
  | isInit (fail : Bool)
  | getLast (fail : Bool)
  | add (image : Image) (ts : TimeVal) (fGet fSet1 fSet2 : Bool)
  | remove (imageId : Option String) (ts : TimeVal) (fGet fSet1 fSet2 : Bool)
  | update (imageId : Option String) (upd : Image → Image) (ts : TimeVal)
      (fGet fSet1 fSet2 : Bool)
  | clear (ts : TimeVal) (f1 f2 f3 : Bool)
  | sync (localImages cloudImages : Option (List (Option Image))) (ts : TimeVal)
      (f1 f2 f3 : Bool)

/-- Whether the operation is the explicit clear. -/
def RedisOp.isClear : RedisOp → Bool
  | .clear _ _ _ _ => true
  | _ => false

/-- Apply one operation to the service state. -/
def applyRedisOp (s : RedisState) : RedisOp → RedisState
  | .init images ts f1 f2 f3 => initCache images ts f1 f2 f3 s
  | .getAll _ => s
  | .isInit _ => s
  | .getLast _ => s
  | .add image ts fGet fSet1 fSet2 => (addImageToCache image ts fGet fSet1 fSet2 s).1
  | .remove imageId ts fGet fSet1 fSet2 =>
    (removeImageFromCache imageId ts fGet fSet1 fSet2 s).1
  | .update imageId upd ts fGet fSet1 fSet2 =>
    (updateImageInCache imageId upd ts fGet fSet1 fSet2 s).1
  | .clear ts f1 f2 f3 => clearCache ts f1 f2 f3 s
  | .sync l c ts f1 f2 f3 => syncCache l c ts f1 f2 f3 s

/-- Apply a sequence of operations, oldest first. -/
def applyRedisOps (ops : List RedisOp) (s : RedisState) : RedisState :=
  ops.foldl applyRedisOp s

end RedisCacheService

namespace CacheManager

/-- The combined result of getCacheStatus. -/
structure CacheStatus where
  images : List Image
  isInitialized : Bool
  isExpired : Bool
  lastUpdated : Option TimeVal
deriving DecidableEq, Repr

/-- The lastUpdatedTime expression of getCacheStatus: a string is parsed
with new Date (none = NaN), a Date yields its millisecond value, and a null
value yields 0. -/
def lastUpdatedTimeOf : Option TimeVal → Option Int
  | none => some 0
  | some (.str p) => p
  | some (.date ms) => some ms

/-- The isExpired computation, textually duplicated in the two branches of
getCacheStatus: true when lastUpdatedTime is falsy (NaN or 0), otherwise
now - lastUpdatedTime > expireMs. -/
def computeIsExpired (lu : Option TimeVal) (now expireMs : Int) : Bool :=
  match lastUpdatedTimeOf lu with
  | none => true
  | some t => decide (t = 0) || decide (now - t > expireMs)

/-- All three memory level values are non-null. -/
def allCachedB (mem : MemoryLevelCache) : Bool :=
  mem.images.isSome && mem.isInitialized.isSome && mem.lastUpdated.isSome

/-- All three memory level values were refreshed within the 10 s TTL. -/
def allFreshB (mem : MemoryLevelCache) (now : Int) : Bool :=
  decide (now - mem.lastFetch < 10000) &&
    decide (now - mem.lastInitializedCheck < 10000) &&
    decide (now - mem.lastUpdatedCheck < 10000)

/-- getCacheStatus on the Redis backing store: serve the memory level cache
when complete and fresh, otherwise fetch all three values (in parallel in
the source), refresh the memory layer and compute isExpired from the
fetched timestamp.  The three fail flags say which backing reads throw
(each read recovers internally via the service memory backup). -/
def getCacheStatusRedis (mem : MemoryLevelCache) (now expireMinutes : Int)
    (fImgs fInit fLast : Bool) (rs : RedisCacheService.RedisState) :
    CacheStatus × MemoryLevelCache :=
  let expireMs := expireMinutes * 60 * 1000
  if allCachedB mem && allFreshB mem now then
    ({ images := mem.images.getD [], isInitialized := mem.isInitialized.getD false,
       isExpired := computeIsExpired mem.lastUpdated now expireMs,
       lastUpdated := mem.lastUpdated }, mem)
  else
    let images := RedisCacheService.getCachedImages fImgs rs
    let isInit := RedisCacheService.isCacheInitialized fInit rs
    let lastUpd := RedisCacheService.getLastUpdated fLast rs
    ({ images := images, isInitialized := isInit,
       isExpired := computeIsExpired lastUpd now expireMs, lastUpdated := lastUpd },
     ⟨some images, now, some isInit, now, lastUpd, now⟩)

end CacheManager

namespace GenerationLimitService

/-- The configured cache type selecting the backing behaviour. -/
inductive CacheType where
  | file
  | redis
deriving DecidableEq, Repr

/-- The daily counter store for today, as the Redis key holds it: absent or
a stored count.  The service never sees other days through this key. -/
def getGenerationCount (ct : CacheType) (store : Option Nat) : Nat :=
  match ct with
  | .redis =>
    match store with
    | some c => if c == 0 then 0 else c
    | none => 0
  | .file => 0

/-- incrementGenerationCount: under Redis, read today, add one and write
back (with the 2-day TTL re-applied, which does not change the value);
under the file type, warn and return 1 without touching any store.  The
returned pair is (returned count, store afterwards). -/
def incrementGenerationCount (ct : CacheType) (store : Option Nat) : Nat × Option Nat :=
  match ct with
  | .redis =>
    let c := (match store with
      | some c => if c == 0 then 0 else c
      | none => 0) + 1
    (c, some c)
  | .file => (1, store)

/-- The record returned by checkGenerationLimit. -/
structure LimitStatus where
  currentCount : Nat
  isLimitExceeded : Bool
  limit : Nat
  remaining : Int
deriving DecidableEq, Repr

/-- checkGenerationLimit: isLimitExceeded is currentCount >= limit and
remaining is Math.max(0, limit - currentCount).  The configured limit
defaults to 50. -/
def checkGenerationLimit (ct : CacheType) (store : Option Nat) (limit : Nat) :
    LimitStatus :=
  let currentCount := getGenerationCount ct store
  { currentCount := currentCount,
    isLimitExceeded := decide (currentCount ≥ limit),
    limit := limit,
    remaining := max 0 ((limit : Int) - (currentCount : Int)) }

/-- n successive increments against the same day key. -/
def iterIncrement (ct : CacheType) : Nat → Option Nat → Option Nat
  | 0, store => store
  | n + 1, store => iterIncrement ct n (incrementGenerationCount ct store).2

end GenerationLimitService

namespace ImageDataModel

/-- The metadata sub-object, as far as normalizeImageData reads it. -/
structure NormMeta where
  prompt : Option String
  createdAt : Option String
deriving DecidableEq, Repr

/-- An incoming heterogeneous image record for normalizeImageData.  tags is
not one of the named special keys: the trailing object spread copies it
verbatim when present and leaves it absent otherwise. -/
structure NormInput where
  id : Option String
  imageUrl : Option String
  url : Option String
  publicUrl : Option String
  prompt : Option String
  createdAt : Option String
  isCloudImage : Option Bool
  fileName : Option String
  cloudFileName : Option String
  key : Option String
  metadata : Option NormMeta
  tags : Option (List String)
deriving DecidableEq, Repr

/-- The canonical record produced by normalizeImageData. -/
structure NormOutput where
  id : String
  imageUrl : Option String
  url : Option String
  publicUrl : Option String
  prompt : String
  createdAt : String
  isCloudImage : Bool
  fileName : Option String
  cloudFileName : Option String
  metadata : NormMeta
  tags : Option (List String)
deriving DecidableEq, Repr

/-- normalizeImageData of src/lib/imageDataModel.js lines 13-45, for a
non-null input (a null input returns null before these rules apply).  The
defaults `img-(Date.now())` and new Date().toISOString() are supplied as
the parameters nowMs and nowIso.  The function is total: no exception is
ever raised. -/
def normalizeImageData (d : NormInput) (nowMs : Int) (nowIso : String) : NormOutput :=
  { id := jsOrSD (jsOrS d.id (jsOrS d.fileName d.key)) (String.append "img-" (toString nowMs)),
    imageUrl := jsOrS d.imageUrl (jsOrS d.url d.publicUrl),
    url := jsOrS d.url (jsOrS d.imageUrl d.publicUrl),
    publicUrl := jsOrS d.publicUrl (jsOrS d.url d.imageUrl),
    prompt := jsOrSD (jsOrS d.prompt (d.metadata.bind NormMeta.prompt)) "无提示词",
    createdAt := jsOrSD (jsOrS d.createdAt (d.metadata.bind NormMeta.createdAt)) nowIso,
    isCloudImage := d.isCloudImage.getD false,
    fileName := jsOrS d.fileName (jsOrS d.id d.key),
    cloudFileName := jsOrS d.cloudFileName (jsOrS d.fileName (jsOrS d.key d.id)),
    metadata := d.metadata.getD ⟨none, none⟩,
    tags := d.tags }

end ImageDataModel

namespace CacheService

theorem keyNe_symm : ∀ {a b : Image}, keyNe a b → keyNe b a := by
  intro a b h
  unfold keyNe keyNeB at *
  rcases ha : cloudKey a with _ | ka <;> rcases hb : cloudKey b with _ | kb <;>
    simp [ha, hb] at *
  exact fun e => h e.symm

theorem keyNe_of_left_none {a b : Image} (h : cloudKey a = none) : keyNe a b := by
  unfold keyNe keyNeB
  simp [h]

theorem keyNe_of_keys {a b : Image} {ka kb : String} (ha : cloudKey a = some ka)
    (hb : cloudKey b = some kb) (h : ka ≠ kb) : keyNe a b := by
  unfold keyNe keyNeB
  simp [ha, hb, h]

theorem imgLe_total (a b : Image) : imgLe a b ∨ imgLe b a := by
  unfold imgLe imgLeB
  rcases a.createdAt with _ | ta <;> rcases b.createdAt with _ | tb <;> simp
  omega

/-- The keys and pairwise distinctness of the records kept by the cloud loop:
every kept record carries a truthy key outside both seen-sets, and kept
records have pairwise different keys. -/
theorem processClouds_spec (ln : List String) :
    ∀ (R : List (Option Image)) (cn : List String),
      (∀ x ∈ processClouds ln cn R, ∃ k, cloudKey x = some k ∧ k ∉ ln ∧ k ∉ cn) ∧
      List.Pairwise keyNe (processClouds ln cn R) := by
  intro R
  induction R with
  | nil => intro cn; simp [processClouds]
  | cons o rest ih =>
    intro cn
    rcases o with _ | img
    · simpa [processClouds] using ih cn
    · rcases h : cloudKey img with _ | k
      · simpa [processClouds, h] using ih cn
      · by_cases hmem : k ∈ cn ∨ k ∈ ln
        · simpa [processClouds, h, hmem] using ih cn
        · push_neg at hmem
          have ihk := ih (k :: cn)
          constructor
          · intro x hx
            simp only [processClouds, h, hmem] at hx
            rw [if_neg (by simp [hmem.1, hmem.2])] at hx
            rcases List.mem_cons.mp hx with rfl | hx
            · exact ⟨k, h, hmem.2, hmem.1⟩
            · rcases ihk.1 x hx with ⟨kx, hkx, hln, hcn⟩
              exact ⟨kx, hkx, hln, fun hc => hcn (List.mem_cons_of_mem _ hc)⟩
          · simp only [processClouds, h]
            rw [if_neg (by simp [hmem.1, hmem.2])]
            refine List.Pairwise.cons ?_ ihk.2
            intro y hy
            rcases ihk.1 y hy with ⟨ky, hky, _, hkycn⟩
            refine keyNe_of_keys h hky ?_
            intro e
            exact hkycn (e ▸ List.mem_cons_self k cn)

theorem keyCovered_spec {x : Image} {ln cn : List String} {k : String}
    (h : keyCovered x ln cn) (hk : cloudKey x = some k) : k ∈ ln ∨ k ∈ cn := by
  unfold keyCovered keyCoveredB at h
  rw [hk] at h
  simpa using h

/-- C1 (amended): whenever every non-null local record with a truthy dedup
key has that key recorded among the local fileName/cloudFileName seen-sets,
and the local records clash-free among themselves, the merged list contains
every local record and no two of its elements share a dedup key.  Without
the proviso the invariant fails (see the counterexample): the local loop
records only fileName and cloudFileName, never id, into the seen-sets. -/
theorem merge_dedup_invariant (L R : List (Option Image))
    (hcov : ∀ x ∈ localKept L, keyCovered x (localFileNames L) (localCloudNames L))
    (hdist : List.Pairwise keyNe (localKept L)) :
    (∀ x ∈ localKept L, x ∈ mergeAndDeduplicateImages L R) ∧
    List.Pairwise keyNe (mergeAndDeduplicateImages L R) := by
  have hperm := List.perm_insertionSort imgLe
    (localKept L ++ processClouds (localFileNames L) (localCloudNames L) R)
  constructor
  · intro x hx
    unfold mergeAndDeduplicateImages
    rw [List.mem_insertionSort]
    exact List.mem_append_left _ hx
  · unfold mergeAndDeduplicateImages
    rw [hperm.pairwise_iff (fun h => keyNe_symm h), List.pairwise_append]
    refine ⟨hdist, (processClouds_spec (localFileNames L) R (localCloudNames L)).2, ?_⟩
    intro a ha b hb
    rcases hk : cloudKey a with _ | ka
    · exact keyNe_of_left_none hk
    · rcases (processClouds_spec (localFileNames L) R (localCloudNames L)).1 b hb with
        ⟨kb, hkb, hbln, hbcn⟩
      refine keyNe_of_keys hk hkb ?_
      rintro rfl
      rcases keyCovered_spec (hcov a ha) hk with h | h
      · exact hbln h
      · exact hbcn h

/-- Witness for C1 on the concrete scenario from the spec: one local record
keyed by fileName, two cloud records of which one duplicates the local. -/
theorem merge_dedup_invariant_witness :
    (∀ x ∈ localKept [some (⟨some "a.png", some "a.png", none, some 2⟩ : Image)],
        x ∈ mergeAndDeduplicateImages
          [some ⟨some "a.png", some "a.png", none, some 2⟩]
          [some ⟨some "a.png", none, some "a.png", some 1⟩,
           some ⟨some "b.png", none, some "b.png", some 3⟩]) ∧
    List.Pairwise keyNe (mergeAndDeduplicateImages
      [some ⟨some "a.png", some "a.png", none, some 2⟩]
      [some ⟨some "a.png", none, some "a.png", some 1⟩,
       some ⟨some "b.png", none, some "b.png", some 3⟩]) :=
  merge_dedup_invariant _ _ (by decide) (by decide)

/-- C1 counterexample: a local record whose only identifier is its id does
not register in either seen-set, so a cloud record with the same id is kept
and the merged result carries two records with dedup key x; the local record
is not the only record present for that key. -/
theorem merge_dedup_counterexample :
    mergeAndDeduplicateImages [some ⟨some "x", none, none, none⟩]
        [some ⟨some "x", none, none, some 1⟩] =
      [⟨some "x", none, none, none⟩, ⟨some "x", none, none, some 1⟩] ∧
    cloudKey ⟨some "x", none, none, none⟩ = some "x" ∧
    cloudKey ⟨some "x", none, none, some 1⟩ = some "x" := by decide

theorem imgLe_trans_mid {a b c : Image} (hb : b.createdAt ≠ none)
    (h1 : imgLe a b) (h2 : imgLe b c) : imgLe a c := by
  unfold imgLe imgLeB at h1 h2 ⊢
  rcases hbb : b.createdAt with _ | tb
  · exact absurd hbb hb
  · rcases ha : a.createdAt with _ | ta <;> rcases hc : c.createdAt with _ | tc <;>
      simp_all <;> omega

theorem chain'_orderedInsert (a : Image) :
    ∀ l : List Image, List.Chain' imgLe l →
      List.Chain' imgLe (List.orderedInsert imgLe a l) := by
  intro l
  induction l with
  | nil => intro _; simp
  | cons b bs ih =>
    intro h
    by_cases hab : imgLe a b
    · simp only [List.orderedInsert, if_pos hab]
      exact List.chain'_cons.mpr ⟨hab, h⟩
    · simp only [List.orderedInsert, if_neg hab]
      have hba : imgLe b a := by
        rcases imgLe_total a b with h1 | h1
        · exact absurd h1 hab
        · exact h1
      rw [List.chain'_cons']
      refine ⟨?_, ih h.tail⟩
      intro y hy
      cases bs with
      | nil =>
        simp only [List.orderedInsert, List.head?] at hy
        rw [Option.mem_def, Option.some_inj] at hy
        exact hy ▸ hba
      | cons c cs =>
        by_cases hac : imgLe a c
        · simp only [List.orderedInsert, if_pos hac, List.head?] at hy
          rw [Option.mem_def, Option.some_inj] at hy
          exact hy ▸ hba
        · simp only [List.orderedInsert, if_neg hac, List.head?] at hy
          rw [Option.mem_def, Option.some_inj] at hy
          exact hy ▸ (List.chain'_cons.mp h).1

theorem chain'_insertionSort :
    ∀ l : List Image, List.Chain' imgLe (List.insertionSort imgLe l) := by
  intro l
  induction l with
  | nil => simp
  | cons b bs ih =>
    simp only [List.insertionSort]
    exact chain'_orderedInsert b _ ih

theorem sorted_orderedInsert_on (a : Image) :
    ∀ l : List Image, (∀ x ∈ l, x.createdAt ≠ none) → List.Sorted imgLe l →
      List.Sorted imgLe (List.orderedInsert imgLe a l) := by
  intro l
  induction l with
  | nil => intro _ _; simp
  | cons b bs ih =>
    intro hp hs
    rw [List.sorted_cons] at hs
    by_cases hab : imgLe a b
    · simp only [List.orderedInsert, if_pos hab]
      rw [List.sorted_cons]
      refine ⟨?_, List.sorted_cons.mpr hs⟩
      intro y hy
      rcases List.mem_cons.mp hy with rfl | hy
      · exact hab
      · exact imgLe_trans_mid (hp b (List.mem_cons_self b bs)) hab (hs.1 y hy)
    · simp only [List.orderedInsert, if_neg hab]
      rw [List.sorted_cons]
      constructor
      · intro y hy
        rw [List.mem_orderedInsert] at hy
        rcases hy with h | hy
        · rw [h]
          rcases imgLe_total a b with h1 | h1
          · exact absurd h1 hab
          · exact h1
        · exact hs.1 y hy
      · exact ih (fun x hx => hp x (List.mem_cons_of_mem b hx)) hs.2

theorem sorted_insertionSort_on :
    ∀ l : List Image, (∀ x ∈ l, x.createdAt ≠ none) →
      List.Sorted imgLe (List.insertionSort imgLe l) := by
  intro l
  induction l with
  | nil => intro _; simp
  | cons b bs ih =>
    intro hp
    simp only [List.insertionSort]
    refine sorted_orderedInsert_on b _ ?_ (ih ?_)
    · intro x hx
      exact hp x (List.mem_cons_of_mem b ((List.mem_insertionSort imgLe).mp hx))
    · intro x hx
      exact hp x (List.mem_cons_of_mem b hx)

/-- C6 (amended): the merge result never raises (the model is total) and its
consecutive elements are always in weakly descending createdAt order under
the comparator that treats an unparsable timestamp as equal to anything;
full descending sortedness of the whole list holds whenever every record in
the result has a parseable createdAt.  With unparsable timestamps
interleaved, global descending order can fail (see the counterexample),
because an unparsable record compares as equal to both neighbours. -/
theorem merge_sort_invariant (L R : List (Option Image)) :
    List.Chain' imgLe (mergeAndDeduplicateImages L R) ∧
    ((∀ x ∈ mergeAndDeduplicateImages L R, x.createdAt ≠ none) →
      List.Sorted imgLe (mergeAndDeduplicateImages L R)) := by
  constructor
  · exact chain'_insertionSort _
  · intro h
    unfold mergeAndDeduplicateImages at h ⊢
    apply sorted_insertionSort_on
    intro x hx
    exact h x ((List.mem_insertionSort imgLe).mpr hx)

/-- Witness for C6 at a concrete input with parseable timestamps. -/
theorem merge_sort_invariant_witness :
    List.Chain' imgLe (mergeAndDeduplicateImages
      [some ⟨some "a", none, none, some 2⟩]
      [some ⟨some "b", none, some "b", some 3⟩]) ∧
    List.Sorted imgLe (mergeAndDeduplicateImages
      [some ⟨some "a", none, none, some 2⟩]
      [some ⟨some "b", none, some "b", some 3⟩]) :=
  ⟨(merge_sort_invariant [some ⟨some "a", none, none, some 2⟩]
      [some ⟨some "b", none, some "b", some 3⟩]).1,
   (merge_sort_invariant [some ⟨some "a", none, none, some 2⟩]
      [some ⟨some "b", none, some "b", some 3⟩]).2 (by decide)⟩

/-- C6 counterexample: with an unparsable timestamp between two parseable
ones, every adjacent comparator call reports equality, the sort leaves the
list unchanged, and the result places the older record (3) before the newer
one (5): the output is not sorted by createdAt descending. -/
theorem merge_sort_counterexample :
    mergeAndDeduplicateImages
        [some ⟨some "c", none, none, some 3⟩, some ⟨some "a", none, none, none⟩,
         some ⟨some "b", none, none, some 5⟩] [] =
      [⟨some "c", none, none, some 3⟩, ⟨some "a", none, none, none⟩,
       ⟨some "b", none, none, some 5⟩] ∧
    ¬ List.Sorted imgLe
        (mergeAndDeduplicateImages
          [some ⟨some "c", none, none, some 3⟩, some ⟨some "a", none, none, none⟩,
           some ⟨some "b", none, none, some 5⟩] []) := by
  constructor
  · decide
  · intro hs
    have h := List.rel_of_sorted_cons hs ⟨some "b", none, none, some 5⟩ (by decide)
    exact absurd h (by decide)

theorem keepB_iff {ln cn : List String} {x : Image} :
    keepB ln cn x = true ↔ ∃ k, cloudKey x = some k ∧ k ∉ ln ∧ k ∉ cn := by
  unfold keepB keyCoveredB
  rcases h : cloudKey x with _ | k
  · simp
  · simp [h]

/-- Running the cloud loop over a list of records whose keep-decisions are
insensitive to the growth of the cloud seen-set reproduces a plain filter:
records dropped relative to the initial sets stay dropped (the sets only
grow), and kept records have pairwise distinct keys that never collide with
the current set. -/
theorem processClouds_eq_filter (ln cn₀ : List String) :
    ∀ (S : List Image) (cn : List String),
      (∀ s ∈ cn₀, s ∈ cn) →
      (∀ x ∈ S, ∀ k, cloudKey x = some k → keepB ln cn₀ x = true → k ∉ cn) →
      List.Pairwise
        (fun a b => keepB ln cn₀ a = true → keepB ln cn₀ b = true → keyNe a b) S →
      processClouds ln cn (S.map some) = S.filter (keepB ln cn₀) := by
  intro S
  induction S with
  | nil => intro cn _ _ _; rfl
  | cons x S ih =>
    intro cn hsup hfree hpw
    rcases hk : cloudKey x with _ | k
    · have hkeep : keepB ln cn₀ x = false := by
        unfold keepB keyCoveredB
        rw [hk]
        rfl
      simp only [List.map, processClouds, hk, List.filter, hkeep]
      exact ih cn hsup (fun y hy => hfree y (List.mem_cons_of_mem x hy)) hpw.tail
    · cases hkeep : keepB ln cn₀ x with
      | true =>
        rcases keepB_iff.mp hkeep with ⟨k2, hk2, hln, hcn0⟩
        rw [hk] at hk2
        cases hk2
        have hnotcn : k ∉ cn := hfree x (List.mem_cons_self x S) k hk hkeep
        simp only [List.map, processClouds, hk, List.filter, hkeep]
        rw [if_neg (by simp [hnotcn, hln])]
        congr 1
        refine ih (k :: cn) (fun s hs => List.mem_cons_of_mem k (hsup s hs)) ?_ hpw.tail
        intro y hy ky hky hkeepy hmem
        rcases List.mem_cons.mp hmem with rfl | hmem
        · have hne := (List.pairwise_cons.mp hpw).1 y hy hkeep hkeepy
          unfold keyNe keyNeB at hne
          rw [hk, hky] at hne
          simp at hne
        · exact hfree y (List.mem_cons_of_mem x hy) ky hky hkeepy hmem
      | false =>
        have hcovd : keyCoveredB x ln cn₀ = true := by
          unfold keepB at hkeep
          simpa using hkeep
        have h2 : k ∈ ln ∨ k ∈ cn₀ := by
          unfold keyCoveredB at hcovd
          rw [hk] at hcovd
          simpa using hcovd
        have hdrop : k ∈ cn ∨ k ∈ ln := by
          rcases h2 with h | h
          · exact Or.inr h
          · exact Or.inl (hsup k h)
        simp only [List.map, processClouds, hk, List.filter, hkeep]
        rw [if_pos hdrop]
        exact ih cn hsup (fun y hy => hfree y (List.mem_cons_of_mem x hy)) hpw.tail

theorem filter_orderedInsert_false (p : Image → Bool) (x : Image) :
    ∀ l : List Image, p x = false →
      (List.orderedInsert imgLe x l).filter p = l.filter p := by
  intro l
  induction l with
  | nil =>
    intro hx
    simp [List.orderedInsert, hx]
  | cons b bs ih =>
    intro hx
    simp only [List.orderedInsert]
    split_ifs with h
    · simp [List.filter_cons, hx]
    · rw [List.filter_cons, List.filter_cons, ih hx]

/-- The insertion sort is the identity on lists whose consecutive elements
are already related; with the total comparator this makes it idempotent. -/
theorem insertionSort_eq_of_chain :
    ∀ l : List Image, List.Chain' imgLe l → List.insertionSort imgLe l = l := by
  intro l
  induction l with
  | nil => intro _; rfl
  | cons u rest ih =>
    intro h
    simp only [List.insertionSort]
    rw [ih h.tail]
    cases rest with
    | nil => rfl
    | cons b bs =>
      have hub : imgLe u b := (List.chain'_cons.mp h).1
      simp only [List.orderedInsert, if_pos hub]

/-- Sorting an appended list only sees the right part through its own sort:
the sort of the right part can be absorbed. -/
theorem insertionSort_append_insertionSort (A X : List Image) :
    List.insertionSort imgLe (A ++ List.insertionSort imgLe X) =
      List.insertionSort imgLe (A ++ X) := by
  induction A with
  | nil =>
    simpa using insertionSort_eq_of_chain (List.insertionSort imgLe X)
      (chain'_insertionSort X)
  | cons a A2 ih =>
    simp only [List.cons_append, List.insertionSort, List.append_eq]
    rw [ih]

/-- Filtering out every element of the left part of an appended list from
its sort leaves the filtered sort of the right part: each left element only
gets inserted somewhere without disturbing the relative order of the
rest. -/
theorem filter_insertionSort_append (p : Image → Bool) :
    ∀ (A X : List Image), (∀ a ∈ A, p a = false) →
      (List.insertionSort imgLe (A ++ X)).filter p =
        (List.insertionSort imgLe X).filter p := by
  intro A
  induction A with
  | nil => intro X _; rfl
  | cons a A2 ih =>
    intro X hA
    simp only [List.cons_append, List.insertionSort, List.append_eq]
    rw [filter_orderedInsert_false p a _ (hA a (List.mem_cons_self a A2))]
    exact ih X (fun x hx => hA x (List.mem_cons_of_mem a hx))

/-- C2 (amended): re-merging the merged output with the same local list
reproduces the merged list exactly, provided every non-null local record
with a truthy dedup key has that key recorded in the fileName/cloudFileName
seen-sets.  Without the proviso the equation fails (see the counterexample):
local records keyed only by id are duplicated on re-merge. -/
theorem merge_idempotent (L R : List (Option Image))
    (hcov : ∀ x ∈ localKept L, keyCovered x (localFileNames L) (localCloudNames L)) :
    mergeAndDeduplicateImages L ((mergeAndDeduplicateImages L R).map some) =
      mergeAndDeduplicateImages L R := by
  unfold mergeAndDeduplicateImages
  set A := localKept L with hA
  set ln := localFileNames L with hlnd
  set cn := localCloudNames L with hcnd
  set K := processClouds ln cn R with hK
  set M := List.insertionSort imgLe (A ++ K) with hM
  have hMperm : List.Perm M (A ++ K) := List.perm_insertionSort imgLe (A ++ K)
  have hAfalse : ∀ x ∈ A, keepB ln cn x = false := by
    intro x hx
    have hc := hcov x hx
    unfold keyCovered at hc
    unfold keepB
    rw [hc]
    rfl
  have hKtrue : ∀ x ∈ K, keepB ln cn x = true := by
    intro x hx
    rcases (processClouds_spec ln R cn).1 x hx with ⟨k, hk, hkl, hkc⟩
    exact keepB_iff.mpr ⟨k, hk, hkl, hkc⟩
  have hpwAK : List.Pairwise
      (fun a b => keepB ln cn a = true → keepB ln cn b = true → keyNe a b) (A ++ K) := by
    rw [List.pairwise_append]
    refine ⟨?_, ?_, ?_⟩
    · refine List.pairwise_of_forall_mem_list ?_
      intro a ha b _ ht _
      rw [hAfalse a ha] at ht
      cases ht
    · exact List.Pairwise.imp (fun h _ _ => h) (processClouds_spec ln R cn).2
    · intro a ha b _ ht _
      rw [hAfalse a ha] at ht
      cases ht
  have hpwM : List.Pairwise
      (fun a b => keepB ln cn a = true → keepB ln cn b = true → keyNe a b) M :=
    (hMperm.pairwise_iff (fun h ht1 ht2 => keyNe_symm (h ht2 ht1))).mpr hpwAK
  have hfree : ∀ x ∈ M, ∀ k, cloudKey x = some k → keepB ln cn x = true → k ∉ cn := by
    intro x _ k hk ht
    rcases keepB_iff.mp ht with ⟨k2, hk2, _, hk2cn⟩
    rw [hk] at hk2
    cases hk2
    exact hk2cn
  have hfilter : processClouds ln cn (M.map some) = M.filter (keepB ln cn) :=
    processClouds_eq_filter ln cn M cn (fun s hs => hs) hfree hpwM
  have hKsort : M.filter (keepB ln cn) = List.insertionSort imgLe K := by
    rw [hM, filter_insertionSort_append (keepB ln cn) A K hAfalse]
    exact List.filter_eq_self.mpr
      (fun x hx => hKtrue x ((List.mem_insertionSort imgLe).mp hx))
  rw [hfilter, hKsort, hM]
  exact insertionSort_append_insertionSort A K

/-- Witness for C2 at the concrete scenario from the spec. -/
theorem merge_idempotent_witness :
    mergeAndDeduplicateImages [some ⟨some "a.png", some "a.png", none, some 2⟩]
        ((mergeAndDeduplicateImages [some ⟨some "a.png", some "a.png", none, some 2⟩]
          [some ⟨some "b.png", none, some "b.png", some 3⟩]).map some) =
      mergeAndDeduplicateImages [some ⟨some "a.png", some "a.png", none, some 2⟩]
        [some ⟨some "b.png", none, some "b.png", some 3⟩] :=
  merge_idempotent _ _ (by decide)

/-- C2 counterexample: a local record carrying only an id is not recorded in
either seen-set, so re-merging the merged output with the same local list
duplicates it: merge(A, merge(A, B)) has the record twice while merge(A, B)
has it once. -/
theorem merge_idempotent_counterexample :
    mergeAndDeduplicateImages [some ⟨some "x", none, none, some 1⟩]
        ((mergeAndDeduplicateImages [some ⟨some "x", none, none, some 1⟩] []).map some) =
      [⟨some "x", none, none, some 1⟩, ⟨some "x", none, none, some 1⟩] ∧
    mergeAndDeduplicateImages [some ⟨some "x", none, none, some 1⟩] [] =
      [⟨some "x", none, none, some 1⟩] ∧
    mergeAndDeduplicateImages [some ⟨some "x", none, none, some 1⟩]
        ((mergeAndDeduplicateImages [some ⟨some "x", none, none, some 1⟩] []).map some) ≠
      mergeAndDeduplicateImages [some ⟨some "x", none, none, some 1⟩] [] := by
  refine ⟨by decide, by decide, ?_⟩
  decide

end CacheService

namespace CacheManager

/-- C3 (amended): of the Cache Manager write operations, only
addImageToCache and removeImageFromCache update the short-TTL memory layer
in lockstep with the backing-store write; updateImageInCache, clearCache
and syncCache leave the memory layer untouched, so within the 10 s TTL a
read served from the memory layer can omit those writes (see the
counterexample). -/
theorem memory_layer_lockstep (s : FileManagerState) :
    (∀ image now,
      (addImageToCacheM image now s).backing =
        CacheService.addImageToCache image now s.backing ∧
      (addImageToCacheM image now s).mem.images =
        s.mem.images.map (fun l =>
          match CacheService.replaceFirstById image l with
          | some l2 => l2
          | none => l ++ [image])) ∧
    (∀ imageId now,
      ((removeImageFromCacheM imageId now s).1).backing =
        (CacheService.removeImageFromCache imageId now s.backing).1 ∧
      ((removeImageFromCacheM imageId now s).1).mem.images =
        s.mem.images.map (List.filter (fun img => !(img.id == imageId)))) ∧
    (∀ imageId upd now, ((updateImageInCacheM imageId upd now s).1).mem = s.mem) ∧
    (∀ now, (clearCacheM now s).mem = s.mem) ∧
    (∀ localImages cloudImages now,
      (syncCacheM localImages cloudImages now s).mem = s.mem) := by
  refine ⟨?_, ?_, fun _ _ _ => rfl, fun _ => rfl, fun _ _ _ => rfl⟩
  · intro image now
    refine ⟨rfl, ?_⟩
    cases hmi : s.mem.images <;> simp [addImageToCacheM, hmi]
  · intro imageId now
    exact ⟨rfl, rfl⟩

/-- C3 counterexample: the memory layer holds one image fetched at t=100;
clearCache at t=200 empties the backing store but not the memory layer, so
a read at t=300 (within the 10 s TTL) still returns the cleared image while
the backing store is empty - the read omits the clear the caller already
performed. -/
theorem memory_layer_counterexample :
    (getCachedImagesM 300
        (clearCacheM 200
          ⟨⟨[⟨some "a", none, none, some 1⟩], some 0, true⟩,
           ⟨some [⟨some "a", none, none, some 1⟩], 100, some true, 100,
            some (TimeVal.date 0), 100⟩⟩)).1 =
      [⟨some "a", none, none, some 1⟩] ∧
    (clearCacheM 200
        ⟨⟨[⟨some "a", none, none, some 1⟩], some 0, true⟩,
         ⟨some [⟨some "a", none, none, some 1⟩], 100, some true, 100,
          some (TimeVal.date 0), 100⟩⟩).backing.images = ([] : List Image) := by
  constructor
  · decide
  · decide

/-- C4: when every backing-store call throws and neither in-process mirror
was ever populated, getCacheStatus does not raise (the model is total) and
returns empty images, isInitialized false and isExpired true, for any clock
value, any expiry setting and any content of the unreachable store. -/
theorem getCacheStatus_all_throwing (now expireMinutes : Int)
    (store : RedisCacheService.RedisStore) :
    (getCacheStatusRedis initialMemoryLevelCache now expireMinutes true true true
        ⟨store, RedisCacheService.initialMemoryCache⟩).1 =
      ⟨[], false, true, none⟩ := rfl

/-- C9: getCacheStatus computes isExpired by comparing now minus the
last-updated timestamp against expireMinutes * 60 * 1000; an absent (null)
or unparsable (NaN) lastUpdated always reads as expired.  The nonzero
hypothesis reflects that a timestamp of exactly 0 ms (the 1970 epoch) is
falsy in JS and also reads as expired. -/
theorem getCacheStatus_isExpired (now expireMinutes t : Int)
    (fImgs fInit fLast : Bool) (rs : RedisCacheService.RedisState) (ht : t ≠ 0) :
    computeIsExpired none now (expireMinutes * 60 * 1000) = true ∧
    computeIsExpired (some (TimeVal.str none)) now (expireMinutes * 60 * 1000) = true ∧
    computeIsExpired (some (TimeVal.str (some t))) now (expireMinutes * 60 * 1000) =
      decide (now - t > expireMinutes * 60 * 1000) ∧
    computeIsExpired (some (TimeVal.date t)) now (expireMinutes * 60 * 1000) =
      decide (now - t > expireMinutes * 60 * 1000) ∧
    ((getCacheStatusRedis initialMemoryLevelCache now expireMinutes
        fImgs fInit fLast rs).1).isExpired =
      computeIsExpired (RedisCacheService.getLastUpdated fLast rs) now
        (expireMinutes * 60 * 1000) := by
  refine ⟨rfl, rfl, ?_, ?_, rfl⟩
  · simp [computeIsExpired, lastUpdatedTimeOf, ht]
  · simp [computeIsExpired, lastUpdatedTimeOf, ht]

/-- Witness for C9 at a parseable nonzero timestamp. -/
theorem getCacheStatus_isExpired_witness :
    computeIsExpired none 10 (1 * 60 * 1000) = true ∧
    computeIsExpired (some (TimeVal.str none)) 10 (1 * 60 * 1000) = true ∧
    computeIsExpired (some (TimeVal.str (some 5))) 10 (1 * 60 * 1000) =
      decide (10 - 5 > 1 * 60 * 1000) ∧
    computeIsExpired (some (TimeVal.date 5)) 10 (1 * 60 * 1000) =
      decide (10 - 5 > 1 * 60 * 1000) ∧
    ((getCacheStatusRedis initialMemoryLevelCache 10 1 false false false
        ⟨⟨none, none, none⟩, RedisCacheService.initialMemoryCache⟩).1).isExpired =
      computeIsExpired (RedisCacheService.getLastUpdated false
        ⟨⟨none, none, none⟩, RedisCacheService.initialMemoryCache⟩) 10 (1 * 60 * 1000) :=
  getCacheStatus_isExpired 10 1 5 false false false
    ⟨⟨none, none, none⟩, RedisCacheService.initialMemoryCache⟩ (by decide)

end CacheManager

namespace CacheService

theorem file_op_monotone (o : FileOp) (s : ImageCache) (h : o.isClear = false)
    (hs : s.isInitialized = true) : (applyFileOp s o).isInitialized = true := by
  cases o with
  | init images now => rfl
  | getAll => exact hs
  | isInit => exact hs
  | getLast => exact hs
  | add image now =>
    simp only [applyFileOp, addImageToCache]
    cases replaceFirstById image s.images <;> simpa using hs
  | remove imageId now =>
    simp only [applyFileOp, removeImageFromCache]
    split_ifs <;> simpa using hs
  | update imageId upd now =>
    simp only [applyFileOp, updateImageInCache]
    cases updateFirstById imageId upd s.images <;> simpa using hs
  | clear now => cases h
  | sync l c now => rfl
  | syncErr now => rfl

end CacheService

namespace RedisCacheService

theorem redis_op_monotone (o : RedisOp) (s : RedisState) (h : o.isClear = false) :
    (s.store.isInitialized = some true →
      (applyRedisOp s o).store.isInitialized = some true) ∧
    (s.mem.isInitialized = true → (applyRedisOp s o).mem.isInitialized = true) := by
  cases o with
  | init images ts f1 f2 f3 =>
    constructor <;> intro hpre <;>
      simp only [applyRedisOp, initCache] <;> split_ifs <;> simpa using hpre
  | getAll fail => exact ⟨fun hpre => hpre, fun hpre => hpre⟩
  | isInit fail => exact ⟨fun hpre => hpre, fun hpre => hpre⟩
  | getLast fail => exact ⟨fun hpre => hpre, fun hpre => hpre⟩
  | add image ts fGet fSet1 fSet2 =>
    constructor <;> intro hpre <;>
      simp only [applyRedisOp, addImageToCache] <;> split_ifs <;> simpa using hpre
  | remove imageId ts fGet fSet1 fSet2 =>
    constructor <;> intro hpre <;>
      simp only [applyRedisOp, removeImageFromCache] <;> split_ifs <;> simpa using hpre
  | update imageId upd ts fGet fSet1 fSet2 =>
    constructor <;> intro hpre <;>
      simp only [applyRedisOp, updateImageInCache] <;>
      rcases CacheService.updateFirstById imageId upd (getCachedImages fGet s) with
        _ | updated <;>
      simp only [] <;> (try split_ifs) <;>
      (try rcases CacheService.updateFirstById imageId upd s.mem.images with _ | mu) <;>
      simpa using hpre
  | clear ts f1 f2 f3 => cases h
  | sync l c ts f1 f2 f3 =>
    constructor <;> intro hpre <;>
      simp only [applyRedisOp, syncCache] <;> split_ifs <;> simpa using hpre

end RedisCacheService

/-- C8: the isInitialized flag is monotonic for both backing stores: from
any state with the flag set, any sequence of operations that does not
contain the explicit clear (init, getAll, isInitialized, getLastUpdated,
addOrUpdate, remove, update, sync - each with every combination of
internal backing failures, which for sync is its error-recovery path)
leaves the flag set; for the Redis variant this holds for the stored flag
and the memory-backup flag alike. -/
theorem isInitialized_monotonic :
    (∀ (ops : List CacheService.FileOp) (s : CacheService.ImageCache),
      (∀ o ∈ ops, o.isClear = false) → s.isInitialized = true →
      (CacheService.applyFileOps ops s).isInitialized = true) ∧
    (∀ (ops : List RedisCacheService.RedisOp) (s : RedisCacheService.RedisState),
      (∀ o ∈ ops, o.isClear = false) →
      (s.store.isInitialized = some true →
        (RedisCacheService.applyRedisOps ops s).store.isInitialized = some true) ∧
      (s.mem.isInitialized = true →
        (RedisCacheService.applyRedisOps ops s).mem.isInitialized = true)) := by
  constructor
  · intro ops
    induction ops with
    | nil => intro s _ hs; exact hs
    | cons o rest ih =>
      intro s hops hs
      exact ih (CacheService.applyFileOp s o) (fun x hx => hops x (List.mem_cons_of_mem o hx))
        (CacheService.file_op_monotone o s (hops o (List.mem_cons_self o rest)) hs)
  · intro ops
    induction ops with
    | nil => intro s _; exact ⟨fun hs => hs, fun hs => hs⟩
    | cons o rest ih =>
      intro s hops
      have hstep := RedisCacheService.redis_op_monotone o s (hops o (List.mem_cons_self o rest))
      have hrest := ih (RedisCacheService.applyRedisOp s o)
        (fun x hx => hops x (List.mem_cons_of_mem o hx))
      exact ⟨fun hs => hrest.1 (hstep.1 hs), fun hs => hrest.2 (hstep.2 hs)⟩

/-- Witness for C8: a concrete clear-free operation sequence over each
backing store, run from an initialized state. -/
theorem isInitialized_monotonic_witness :
    (CacheService.applyFileOps
      [CacheService.FileOp.init [] 1, CacheService.FileOp.getAll,
       CacheService.FileOp.add ⟨some "a", none, none, some 2⟩ 3,
       CacheService.FileOp.remove (some "z") 4,
       CacheService.FileOp.update (some "a") (fun i => i) 5,
       CacheService.FileOp.sync none (some [some ⟨some "b", none, some "b", some 6⟩]) 7,
       CacheService.FileOp.syncErr 8]
      ⟨[], some 0, true⟩).isInitialized = true ∧
    (RedisCacheService.applyRedisOps
      [RedisCacheService.RedisOp.init [] (TimeVal.str (some 1)) false true false,
       RedisCacheService.RedisOp.getAll true,
       RedisCacheService.RedisOp.add ⟨some "a", none, none, some 2⟩
         (TimeVal.str (some 3)) false false true,
       RedisCacheService.RedisOp.remove (some "a") (TimeVal.str (some 4)) false true false,
       RedisCacheService.RedisOp.update (some "a") (fun i => i) (TimeVal.str (some 5))
         false false false,
       RedisCacheService.RedisOp.sync none none (TimeVal.str (some 6)) true false false]
      ⟨⟨some [], some (TimeVal.str (some 0)), some true⟩, ⟨[], none, true⟩⟩).store.isInitialized =
        some true := by
  constructor
  · exact (isInitialized_monotonic.1 _ _ (by
      intro o ho
      fin_cases ho <;> rfl) rfl)
  · exact ((isInitialized_monotonic.2 _ _ (by
      intro o ho
      fin_cases ho <;> rfl)).1 rfl)

namespace GenerationLimitService

theorem iterIncrement_redis_pos (n : Nat) :
    ∀ c : Nat, c ≠ 0 → iterIncrement CacheType.redis n (some c) = some (c + n) := by
  induction n with
  | zero => intro c _; rfl
  | succ n ih =>
    intro c hc
    have hstep : (incrementGenerationCount CacheType.redis (some c)).2 = some (c + 1) := by
      simp [incrementGenerationCount, hc]
    simp only [iterIncrement, hstep]
    rw [ih (c + 1) (by omega)]
    congr 1
    omega

/-- C5: with the Redis backing storing counts exactly, after n >= 1
increments the stored count is n; isLimitExceeded is currentCount >= limit
and remaining is max(0, limit - currentCount); in particular after exactly
50 increments with limit 50 the check reports exceeded with remaining 0,
and after 49 it reports not exceeded with remaining 1. -/
theorem checkGenerationLimit_boundary :
    (∀ (store : Option Nat) (limit : Nat),
      (checkGenerationLimit CacheType.redis store limit).isLimitExceeded =
        decide (getGenerationCount CacheType.redis store ≥ limit) ∧
      (checkGenerationLimit CacheType.redis store limit).remaining =
        max 0 ((limit : Int) - (getGenerationCount CacheType.redis store : Int))) ∧
    (∀ n : Nat, iterIncrement CacheType.redis (n + 1) none = some (n + 1)) ∧
    checkGenerationLimit CacheType.redis (iterIncrement CacheType.redis 50 none) 50 =
      ⟨50, true, 50, 0⟩ ∧
    checkGenerationLimit CacheType.redis (iterIncrement CacheType.redis 49 none) 50 =
      ⟨49, false, 50, 1⟩ := by
  have hiter : ∀ n : Nat, iterIncrement CacheType.redis (n + 1) none = some (n + 1) := by
    intro n
    show iterIncrement CacheType.redis n
      (incrementGenerationCount CacheType.redis none).2 = some (n + 1)
    have h1 : (incrementGenerationCount CacheType.redis none).2 = some 1 := rfl
    rw [h1, iterIncrement_redis_pos n 1 (by omega)]
    congr 1
    omega
  have h50 : iterIncrement CacheType.redis 50 none = some 50 := by
    have h := hiter 49
    norm_num at h
    exact h
  have h49 : iterIncrement CacheType.redis 49 none = some 49 := by
    have h := hiter 48
    norm_num at h
    exact h
  refine ⟨fun _ _ => ⟨rfl, rfl⟩, hiter, ?_, ?_⟩
  · rw [h50]
    decide
  · rw [h49]
    decide

/-- C10: under the file cache type the counter is never read or written:
getGenerationCount is always 0, incrementGenerationCount always returns 1
and leaves the store unchanged, so for every positive limit
checkGenerationLimit reports not exceeded with the full quota remaining -
the daily quota is never enforced. -/
theorem file_backend_never_limits (limit : Nat) (hpos : 0 < limit) :
    (∀ store : Option Nat, getGenerationCount CacheType.file store = 0) ∧
    (∀ store : Option Nat, incrementGenerationCount CacheType.file store = (1, store)) ∧
    (∀ (n : Nat) (store : Option Nat), iterIncrement CacheType.file n store = store) ∧
    (∀ store : Option Nat,
      checkGenerationLimit CacheType.file store limit =
        ⟨0, false, limit, (limit : Int)⟩) := by
  refine ⟨fun _ => rfl, fun _ => rfl, ?_, ?_⟩
  · intro n
    induction n with
    | zero => intro store; rfl
    | succ n ih => intro store; exact ih store
  · intro store
    have h1 : decide ((0 : Nat) ≥ limit) = false := by
      simp only [decide_eq_false_iff_not]
      omega
    have h2 : max 0 ((limit : Int) - ((0 : Nat) : Int)) = (limit : Int) := by
      omega
    simp [checkGenerationLimit, getGenerationCount, h1, h2]
    omega

/-- Witness for C10 at the default limit of 50 and a store that somehow
holds a count of 7. -/
theorem file_backend_never_limits_witness :
    getGenerationCount CacheType.file (some 7) = 0 ∧
    incrementGenerationCount CacheType.file (some 7) = (1, some 7) ∧
    iterIncrement CacheType.file 3 (some 7) = some 7 ∧
    checkGenerationLimit CacheType.file (some 7) 50 = ⟨0, false, 50, 50⟩ :=
  have h := file_backend_never_limits 50 (by decide)
  ⟨h.1 (some 7), h.2.1 (some 7), h.2.2.1 3 (some 7), h.2.2.2 (some 7)⟩

end GenerationLimitService

namespace ImageDataModel

/-- C7 (amended): normalizeImageData is total (never raises) and a record
with a falsy prompt (and falsy metadata prompt) receives the placeholder
prompt; tags however are passed through unchanged by the trailing spread,
so a record with no tags field yields a record with no tags field, not an
empty list (see the counterexample). -/
theorem normalize_defaults (d : NormInput) (nowMs : Int) (nowIso : String)
    (hprompt : truthyS d.prompt = false)
    (hmeta : truthyS (d.metadata.bind NormMeta.prompt) = false) :
    (normalizeImageData d nowMs nowIso).prompt = "无提示词" ∧
    (normalizeImageData d nowMs nowIso).tags = d.tags := by
  constructor
  · unfold normalizeImageData jsOrSD jsOrS
    simp [hprompt, hmeta]
  · rfl

/-- Witness for C7 on the fully-absent record. -/
theorem normalize_defaults_witness :
    (normalizeImageData
        ⟨none, none, none, none, none, none, none, none, none, none, none, none⟩
        0 "t0").prompt = "无提示词" ∧
    (normalizeImageData
        ⟨none, none, none, none, none, none, none, none, none, none, none, none⟩
        0 "t0").tags =
      (⟨none, none, none, none, none, none, none, none, none, none, none, none⟩ :
        NormInput).tags :=
  normalize_defaults _ 0 "t0" (by decide) (by decide)

/-- C7 counterexample: a record missing tags is normalized to a record
still missing tags, not to one with an empty tags list. -/
theorem normalize_missing_tags_counterexample :
    (normalizeImageData
        ⟨none, none, none, none, none, none, none, none, none, none, none, none⟩
        0 "t0").tags = none ∧
    (normalizeImageData
        ⟨none, none, none, none, none, none, none, none, none, none, none, none⟩
        0 "t0").tags ≠ some [] := by
  constructor
  · rfl
  · decide

end ImageDataModel
